import Mathlib

/-
  Verification of the SwarmClone orchestration kernel against its
  natural-language specification.

  Shallow embedding of:
  * backend/src/message.py        (MessageBus: topic patterns, publish)
  * src/core/event_bus.py         (EventBus: publish, request/response)
  * src/core/config_manager.py    (ConfigEventBus, ConfigManager)
  * backend/src/framework/config_manager.py (identical set/register/subscribe logic)
  * src/core/controller.py        (Controller.run / stop_modules)
  * src/core/module_manager.py    (ModuleManager.discover_modules)

  Strings are modelled as lists of characters.
-/

/- ===================== 1. Topic matcher (MessageBus) ===================== -/

/-- Python single-character `str.replace`: every occurrence of the character
`old` is replaced by the string `new`; insertions are not rescanned.  For a
one-character pattern this is exactly a flat map over the characters. -/
def replaceChar (s : List Char) (old : Char) (new : List Char) : List Char :=
  s.flatMap (fun c => if c = old then new else [c])

/-- `MessageBus._compile_pattern` body: the regex source text produced by
`pattern.replace(".", "\\.").replace("*", "[^.]*").replace("?", "[^.]")`.
The source then wraps it as `^body$` and calls `re.compile`; the anchors and
`re.match` semantics are part of `matchHere` below. -/
def compile_pattern (p : List Char) : List Char :=
  replaceChar
    (replaceChar (replaceChar p '.' ['\\', '.']) '*' ['[', '^', '.', ']', '*'])
    '?' ['[', '^', '.', ']']

/-- Atoms of the regex fragment reachable from `compile_pattern`:
a literal character, or the negated class `[^.]` (any character except a dot,
newline included). -/
inductive RAtom where
  | lit (c : Char)
  | nonDot
deriving DecidableEq, Repr

/-- Postfix quantifiers of Python regexes that can act on an atom. -/
inductive RQuant where
  | qstar
  | qplus
  | qopt
deriving DecidableEq, Repr

/-- Lexed regex tokens: an atom or a postfix quantifier. -/
inductive PTok where
  | atom (a : RAtom)
  | quant (q : RQuant)
deriving DecidableEq, Repr

/-- A quantified regex element. -/
inductive Rx where
  | one (a : RAtom)
  | star (a : RAtom)
  | plus (a : RAtom)
  | opt (a : RAtom)
deriving DecidableEq, Repr

/-- Regex metacharacters of Python `re` that `compile_pattern` does NOT escape.
A topic-pattern literal drawn from this set changes the meaning of the
compiled regex (or makes `re.compile` raise). -/
def rxMeta : List Char :=
  ['\\', '[', ']', '^', '$', '.', '|', '?', '*', '+', '(', ')', '{', '}']

/-- Lexer for the regex fragment: literal characters, escapes `\c`, the class
`[^.]`, and the postfix quantifiers.  Returns `none` on anything our model of
Python `re` does not cover (raw metacharacters such as `(` or `{`, other
classes, a trailing backslash). -/
def lexRegex : List Char → Option (List PTok)
  | [] => some []
  | '\\' :: c :: r => (lexRegex r).map (fun ts => PTok.atom (RAtom.lit c) :: ts)
  | ['\\'] => none
  | '[' :: '^' :: '.' :: ']' :: r => (lexRegex r).map (fun ts => PTok.atom RAtom.nonDot :: ts)
  | '[' :: _ => none
  | x :: rest =>
    if x = '*' then (lexRegex rest).map (fun ts => PTok.quant RQuant.qstar :: ts)
    else if x = '+' then (lexRegex rest).map (fun ts => PTok.quant RQuant.qplus :: ts)
    else if x = '?' then (lexRegex rest).map (fun ts => PTok.quant RQuant.qopt :: ts)
    else if x ∈ rxMeta then none
    else (lexRegex rest).map (fun ts => PTok.atom (RAtom.lit x) :: ts)

/-- Attach a quantifier to the atom it follows. -/
def applyQuant : RQuant → RAtom → Rx
  | RQuant.qstar, a => Rx.star a
  | RQuant.qplus, a => Rx.plus a
  | RQuant.qopt, a => Rx.opt a

/-- Combine lexed tokens into quantified elements.  A quantifier with no
preceding atom (Python: nothing to repeat) or a doubly quantified atom
(Python: multiple repeat, or a lazy quantifier) is rejected. -/
def combineToks : List PTok → Option (List Rx)
  | [] => some []
  | PTok.quant _ :: _ => none
  | [PTok.atom a] => some [Rx.one a]
  | PTok.atom a :: PTok.quant q :: rest2 =>
    (combineToks rest2).map (fun rs => applyQuant q a :: rs)
  | PTok.atom a :: PTok.atom b :: rest2 =>
    (combineToks (PTok.atom b :: rest2)).map (fun rs => Rx.one a :: rs)

/-- Model of `re.compile` on the fragment reachable from `compile_pattern`. -/
def parseRegexBody (l : List Char) : Option (List Rx) :=
  (lexRegex l).bind combineToks

/-- Does the atom match one character? -/
def ratomMatch : RAtom → Char → Bool
  | RAtom.lit c, a => a == c
  | RAtom.nonDot, a => a != '.'

/-- Zero-or-more repetitions of an atom followed by a continuation `m`. -/
def rxStar (m : List Char → Bool) (a : RAtom) : List Char → Bool
  | [] => m []
  | c :: s => m (c :: s) || (ratomMatch a c && rxStar m a s)

/-- Anchored matching of a quantified-element list against a string, as
`re.match` on `^body$` behaves: the match must start at position 0 and `$`
accepts either the end of the string or a position just before a single
trailing newline (Python `$` semantics without MULTILINE). -/
def matchHere : List Rx → List Char → Bool
  | [], s => decide (s = [] ∨ s = ['\n'])
  | Rx.one _ :: _, [] => false
  | Rx.one a :: rs, c :: s2 => ratomMatch a c && matchHere rs s2
  | Rx.star a :: rs, s => rxStar (matchHere rs) a s
  | Rx.plus _ :: _, [] => false
  | Rx.plus a :: rs, c :: s2 => ratomMatch a c && rxStar (matchHere rs) a s2
  | Rx.opt _ :: rs, [] => matchHere rs []
  | Rx.opt a :: rs, c :: s2 =>
    matchHere rs (c :: s2) || (ratomMatch a c && matchHere rs s2)

/-- `MessageBus._compile_pattern(pattern).match(topic)` viewed as a boolean:
`some b` when the compiled regex is inside the modelled fragment (always the
case for patterns made of dots, wildcards and non-metacharacter literals),
`none` when compilation falls outside it.  It is a pure function of its
arguments, hence deterministic. -/
def matchesPattern (p t : List Char) : Option Bool :=
  (parseRegexBody (compile_pattern p)).map (fun rs => matchHere rs t)

/- ------------------ reference segment-by-segment matcher ------------------ -/

/-- Splitting on the dot separator, as Python `str.split(".")`:
the empty string yields one empty segment. -/
def splitDots : List Char → List (List Char)
  | [] => [[]]
  | c :: r =>
    if c = '.' then [] :: splitDots r
    else (c :: (splitDots r).headI) :: (splitDots r).tail

/-- Zero-or-more non-dot characters followed by a continuation `m`. -/
def segStar (m : List Char → Bool) : List Char → Bool
  | [] => m []
  | a :: s => m (a :: s) || ((a != '.') && segStar m s)

/-- Glob matching of one pattern segment against one topic segment:
`*` matches a run of zero or more non-dot characters, `?` matches exactly one
non-dot character, every other character (dots included) matches literally. -/
def segGlob : List Char → List Char → Bool
  | [], s => decide (s = [])
  | c :: ps, [] => if c = '*' then segStar (segGlob ps) [] else false
  | c :: ps, a :: s2 =>
    if c = '*' then segStar (segGlob ps) (a :: s2)
    else if c = '?' then (a != '.') && segGlob ps s2
    else (a == c) && segGlob ps s2

/-- Pairwise matching of pattern segments against topic segments. -/
def segsMatch : List (List Char) → List (List Char) → Bool
  | [], [] => true
  | ps :: pss, ts :: tss => segGlob ps ts && segsMatch pss tss
  | _, _ => false

/-- The reference brute-force segment-by-segment matcher of the spec:
split pattern and topic on dots and match segment against segment. -/
def refMatches (p t : List Char) : Bool :=
  segsMatch (splitDots p) (splitDots t)

/-- Topic patterns built from dots, `*`, `?`, and literal characters that are
not regex metacharacters. -/
def safePat (p : List Char) : Prop :=
  ∀ c ∈ p, c = '.' ∨ c = '*' ∨ c = '?' ∨ c ∉ rxMeta

instance (p : List Char) : Decidable (safePat p) := by
  unfold safePat
  infer_instance

/-- The topic does not end with a newline (Python `$` would otherwise ignore
that trailing newline). -/
def noTrailNl (t : List Char) : Prop := t.getLast? ≠ some '\n'

instance (t : List Char) : Decidable (noTrailNl t) := by
  unfold noTrailNl
  infer_instance

/-- Per-character contribution of `compile_pattern` to the regex text. -/
def tokStr (c : Char) : List Char :=
  if c = '.' then ['\\', '.']
  else if c = '*' then ['[', '^', '.', ']', '*']
  else if c = '?' then ['[', '^', '.', ']']
  else [c]

/-- Per-character contribution to the lexed token stream. -/
def pLex (c : Char) : List PTok :=
  if c = '.' then [PTok.atom (RAtom.lit '.')]
  else if c = '*' then [PTok.atom RAtom.nonDot, PTok.quant RQuant.qstar]
  else if c = '?' then [PTok.atom RAtom.nonDot]
  else [PTok.atom (RAtom.lit c)]

/-- Per-character contribution to the compiled element list. -/
def tokChar (c : Char) : Rx :=
  if c = '.' then Rx.one (RAtom.lit '.')
  else if c = '*' then Rx.star RAtom.nonDot
  else if c = '?' then Rx.one RAtom.nonDot
  else Rx.one (RAtom.lit c)

/- ================= 2. MessageBus.publish and EventBus ================= -/

/-- Values handled by the buses.  `noResponse` is the sentinel dictionary
(key no_response mapped to True) that `EventBus._trigger_response` substitutes
for a `None` result so the future never waits forever. -/
inductive EVal where
  | mk (n : Nat)
  | noResponse
deriving DecidableEq, Repr

/-- Outcome of invoking one subscriber callback: it returns a value, returns
None (`ret none`), or raises an exception. -/
inductive CbOut where
  | ret (v : Option EVal)
  | raise
deriving DecidableEq, Repr

/-- A MessageBus subscription: callback identified by `id`, with its
behaviour on the published message. -/
structure MSub where
  id : Nat
  out : CbOut
deriving DecidableEq, Repr

/-- Body of `execute_callback` in `MessageBus.publish`: the callback is
awaited inside try/except, a raising callback is logged and yields None. -/
def execCallback (o : CbOut) : Option EVal :=
  match o with
  | CbOut.ret v => v
  | CbOut.raise => none

namespace MessageBus

/-- `MessageBus.publish` on the matching subscription list: one task per
subscription (so every callback is invoked), results gathered in order, then
exceptions and None values are filtered out.  Returns (result list, ids of
the callbacks that were invoked). -/
def publish (subs : List MSub) : List EVal × List Nat :=
  let callbackResults := subs.map (fun s => execCallback s.out)
  (callbackResults.filterMap id, subs.map (fun s => s.id))

end MessageBus

/-- An EventBus subscriber for a given event: `filterPass` is the value of
`filter is None or filter(event)`, `out` the callback behaviour. -/
structure ESub where
  id : Nat
  filterPass : Bool
  out : CbOut
deriving DecidableEq, Repr

/-- `EventBus._trigger_response` acting on the response future: a done future
is left untouched; otherwise it is resolved with the result, or with the
no_response sentinel when the result is None. -/
def trigger (fut : Option EVal) (result : Option EVal) : Option EVal :=
  match fut with
  | some v => some v
  | none =>
    match result with
    | some v => some v
    | none => some EVal.noResponse

/-- State threaded through the subscriber loop of `EventBus.publish`:
collected results, the response future, and the ids of invoked callbacks. -/
structure PubState where
  results : List EVal
  fut : Option EVal
  invoked : List Nat
deriving DecidableEq, Repr

namespace EventBus

/-- One iteration of the subscriber loop of `EventBus.publish`: a subscriber
whose filter rejects the event is skipped; otherwise the callback runs inside
try/except — on success a non-None result is appended (when the event needs a
response) and triggers the response channel (when present); a raising
callback triggers the channel with None. -/
def pubStep (needResponse hasChannel : Bool) (st : PubState) (s : ESub) : PubState :=
  if ¬ s.filterPass then st
  else
    match s.out with
    | CbOut.raise =>
      { st with invoked := st.invoked ++ [s.id],
                fut := if needResponse && hasChannel then trigger st.fut none else st.fut }
    | CbOut.ret none => { st with invoked := st.invoked ++ [s.id] }
    | CbOut.ret (some v) =>
      { results := if needResponse then st.results ++ [v] else st.results,
        fut := if needResponse && hasChannel then trigger st.fut (some v) else st.fut,
        invoked := st.invoked ++ [s.id] }

/-- `EventBus.publish` over the subscribers of the event's name: loop over
them, then, if the event needs a response but collected no result, trigger
the response channel with None. -/
def publish (subs : List ESub) (needResponse hasChannel : Bool) : PubState :=
  let st := subs.foldl (pubStep needResponse hasChannel) ⟨[], none, []⟩
  if needResponse && st.results.isEmpty && hasChannel then { st with fut := trigger st.fut none }
  else st

/-- `EventBus.request`: with no subscriber it returns None at once without
creating a pending entry.  Otherwise it creates an unset future and a pending
id, awaits `publish` (sequential: both async and executor callbacks are
awaited inline), then awaits the future — which `publish` has already
resolved — and in the `finally` block always removes the future and the
pending id.  Returns (result, does the pending table still hold the id). -/
def request (subs : List ESub) : Option EVal × Bool :=
  if subs.isEmpty then (none, false)
  else
    let st := publish subs true true
    (st.fut, false)

end EventBus

/- ================= 3. ConfigEventBus and ConfigManager ================= -/

/-- Python dict assignment on an association list: replace in place when the
key is present (dicts keep the original position of an existing key), append
otherwise. -/
def assocSet {β : Type} (l : List (String × β)) (k : String) (v : β) :
    List (String × β) :=
  if (l.lookup k).isSome then l.map (fun p => if p.1 = k then (k, v) else p)
  else l ++ [(k, v)]

/-- `ConfigEventBus._subscribers`: event name to (module name to callback id).
Callbacks are identified by numeric ids. -/
structure CfgBus where
  subscribers : List (String × List (String × Nat))
deriving DecidableEq, Repr

namespace ConfigEventBus

/-- `ConfigEventBus.subscribe`: create the inner table for a new event name,
then assign `subscribers[event][module] = callback` — a dict assignment, so a
second registration by the same module for the same event replaces the
earlier callback. -/
def subscribe (b : CfgBus) (moduleName eventName : String) (cb : Nat) : CfgBus :=
  if (b.subscribers.lookup eventName).isSome then
    ⟨b.subscribers.map
      (fun p => if p.1 = eventName then (eventName, assocSet p.2 moduleName cb) else p)⟩
  else ⟨b.subscribers ++ [(eventName, [(moduleName, cb)])]⟩

/-- `ConfigEventBus.publish`: invocation log of one publish — every
(module, callback) pair subscribed to the event is called once with the new
value, in table order (exceptions are caught and logged per callback). -/
def publish {α : Type} (b : CfgBus) (eventName : String) (v : Option α) :
    List (String × Nat × Option α) :=
  match b.subscribers.lookup eventName with
  | some inner => inner.map (fun p => (p.1, p.2, v))
  | none => []

end ConfigEventBus

/-- The invariant of the subscriber table: event names are unique and each
inner module table has unique module names (Python dicts). -/
def wfBus (b : CfgBus) : Prop :=
  (b.subscribers.map Prod.fst).Nodup ∧ ∀ p ∈ b.subscribers, (p.2.map Prod.fst).Nodup

instance (b : CfgBus) : Decidable (wfBus b) := by
  unfold wfBus
  infer_instance

/-- `ConfigManager` state: the in-memory module-to-key-to-value structure,
the persisted copy written by `_save_config` (the whole structure is dumped
on every save), and the config event bus.  Stored values live in `Option α`
with `none` playing Python None. -/
structure CfgMgr (α : Type) where
  data : List (String × List (String × Option α))
  saved : List (String × List (String × Option α))
  bus : CfgBus
deriving DecidableEq, Repr

/-- Result of a `set` or `register` call: the new manager state, the change
events published on the bus, and the callback invocations they caused. -/
structure SetResult (α : Type) where
  mgr : CfgMgr α
  events : List (String × Option α)
  calls : List (String × Nat × Option α)
deriving DecidableEq, Repr

namespace ConfigManager

/-- `_ensure_module_exists`: create and persist an empty module table when
the module is absent. -/
def ensureModule {α : Type} (mgr : CfgMgr α) (m : String) : CfgMgr α :=
  if (mgr.data.lookup m).isSome then mgr
  else
    { data := mgr.data ++ [(m, [])], saved := mgr.data ++ [(m, [])], bus := mgr.bus }

/-- The value `set` compares against (source: old_value = None; if key in
data[module]: old_value = data[module][key]). -/
def oldValue {α : Type} (mgr : CfgMgr α) (m k : String) : Option α :=
  (((mgr.data.lookup m).getD []).lookup k).getD none

/-- The data structure after `self.config_data[module_name][config_key] =
value` (the module table exists after `_ensure_module_exists`). -/
def setData {α : Type} (mgr : CfgMgr α) (m k : String) (v : Option α) :
    List (String × List (String × Option α)) :=
  (ensureModule mgr m).data.map (fun p => if p.1 = m then (m, assocSet p.2 k v) else p)

/-- The manager state after storing and persisting the new value. -/
def setStore {α : Type} (mgr : CfgMgr α) (m k : String) (v : Option α) : CfgMgr α :=
  { data := setData mgr m k v, saved := setData mgr m k v,
    bus := (ensureModule mgr m).bus }

/-- `ConfigManager.set`: ensure the module table, read the old value, store
the new value, persist the whole structure, and — only when the value
changed by `!=`, i.e. by value — publish one change event on topic
module.key, invoking the subscribed callbacks. -/
def set {α : Type} [DecidableEq α] (mgr : CfgMgr α) (m k : String) (v : Option α) :
    SetResult α :=
  if oldValue (ensureModule mgr m) m k = v then
    { mgr := setStore mgr m k v, events := [], calls := [] }
  else
    { mgr := setStore mgr m k v, events := [(m ++ "." ++ k, v)],
      calls := ConfigEventBus.publish (setStore mgr m k v).bus (m ++ "." ++ k) v }

/-- `ConfigManager.has_config`: the module table exists and holds the key. -/
def has_config {α : Type} (mgr : CfgMgr α) (m k : String) : Bool :=
  (mgr.data.lookup m).isSome && (((mgr.data.lookup m).getD []).lookup k).isSome

/-- The manager state right after `register` has subscribed the callback to
the change topic module.key (subscription happens before any defaulting). -/
def registerBus {α : Type} (mgr : CfgMgr α) (m k : String) (cb : Nat) : CfgMgr α :=
  { mgr with bus := ConfigEventBus.subscribe mgr.bus m (m ++ "." ++ k) cb }

/-- `ConfigManager.register`: subscribe the callback to topic module.key
first, then, when the key is absent, route the default through `set`. -/
def register {α : Type} [DecidableEq α] (mgr : CfgMgr α) (m k : String)
    (d : Option α) (cb : Nat) : SetResult α :=
  if has_config (registerBus mgr m k cb) m k then
    { mgr := registerBus mgr m k cb, events := [], calls := [] }
  else set (registerBus mgr m k cb) m k d

end ConfigManager

/- ================= 4. Controller.run ================= -/

/-- Observable actions of the controller shutdown path. -/
inductive CtrlEvt where
  | stopModule (name : String)
  | busCleanup
deriving DecidableEq, Repr

namespace Controller

/-- `Controller.stop_modules`: stop every loaded module in reverse insertion
order (per-module exceptions are caught and logged), then clean up the
message bus. -/
def stop_modules (mods : List String) : List CtrlEvt :=
  (mods.reverse.map CtrlEvt.stopModule) ++ [CtrlEvt.busCleanup]

/-- How the try block of `run` ends: the shutdown-event wait returns, the
task is cancelled (asyncio.CancelledError), or a generic exception escapes
the startup or wait code. -/
inductive RunEnd where
  | normal
  | cancelled
  | failed
deriving DecidableEq, Repr

/-- Python try / except CancelledError / except Exception / finally with a
non-raising finalizer: the matching handler trace runs after the body, the
finalizer always runs last, and the call re-raises only when the generic
handler re-raises. -/
def pyTryExceptFinally (body : List CtrlEvt × RunEnd)
    (onCancelled onFailed : List CtrlEvt) (failedReraises : Bool)
    (finalizer : List CtrlEvt) : List CtrlEvt × Bool :=
  match body.2 with
  | RunEnd.normal => (body.1 ++ finalizer, false)
  | RunEnd.cancelled => (body.1 ++ onCancelled ++ finalizer, false)
  | RunEnd.failed => (body.1 ++ onFailed ++ finalizer, failedReraises)

/-- `Controller.run`: the try block loads, initializes and starts the modules
and waits on the shutdown event (trace `bodyTrace`, ending as `e`);
`except asyncio.CancelledError` only logs; `except Exception` logs, awaits
`stop_modules()` and re-raises; `finally` awaits `stop_modules()` again.
Returns the action trace and whether `run` re-raises. -/
def run (mods : List String) (bodyTrace : List CtrlEvt) (e : RunEnd) :
    List CtrlEvt × Bool :=
  pyTryExceptFinally (bodyTrace, e) [] (stop_modules mods) true (stop_modules mods)

/-- Number of executions of the shutdown sequence in a trace: each
`stop_modules` run contributes exactly one bus cleanup. -/
def shutdownCount (tr : List CtrlEvt) : Nat := tr.count CtrlEvt.busCleanup

end Controller

/- ================= 5. ModuleManager.discover_modules ================= -/

/-- The descriptor built from a manifest (instance, state and path fields of
the source dataclass are irrelevant to discovery and omitted). -/
structure ModuleInfo where
  name : String
  full_name : String
  category : String
  entry : String
  class_name : String
deriving DecidableEq, Repr

/-- One manifest.json found by the rglob walk: either text that fails
`json.load` (JSONDecodeError — caught and logged) or a parsed JSON object. -/
inductive DirManifest where
  | badJson
  | json (kv : List (String × String))
deriving DecidableEq, Repr

namespace ModuleManager

/-- Required-field validation and descriptor construction: all four fields
must be present; full_name is category.module_name. -/
def processManifest (kv : List (String × String)) : Option ModuleInfo :=
  match kv.lookup "module_name", kv.lookup "category", kv.lookup "entry",
      kv.lookup "class_name" with
  | some n, some c, some e, some cl =>
    some { name := n, full_name := c ++ "." ++ n, category := c, entry := e, class_name := cl }
  | _, _, _, _ => none

/-- Handling of one manifest file inside the per-file try/except: a JSON
error or a missing required field is logged and skipped; a valid manifest is
stored under `self.modules[full_name]` (a dict assignment, so a later
manifest with the same full name replaces the earlier descriptor). -/
def discoverStep (mods : List (String × ModuleInfo)) (f : DirManifest) :
    List (String × ModuleInfo) :=
  match f with
  | DirManifest.badJson => mods
  | DirManifest.json kv =>
    match processManifest kv with
    | none => mods
    | some mi => assocSet mods mi.full_name mi

/-- `ModuleManager.discover_modules` on a fresh manager: fold the per-file
step over the manifests found; every exception is caught per file, so the
whole walk is total and never raises. -/
def discover_modules (files : List DirManifest) : List (String × ModuleInfo) :=
  files.foldl discoverStep []

/-- The descriptor a single directory would contribute, if well-formed. -/
def manifestInfo (f : DirManifest) : Option ModuleInfo :=
  match f with
  | DirManifest.badJson => none
  | DirManifest.json kv => processManifest kv

end ModuleManager

/- ================= spec-side characterizations used by the theorems ================= -/

/-- The result one subscriber contributes to a response-collecting
`EventBus.publish`. -/
def resultOf (s : ESub) : Option EVal :=
  if s.filterPass then
    match s.out with
    | CbOut.ret (some v) => some v
    | _ => none
  else none

/-- The id a subscriber contributes to the invocation list of
`EventBus.publish`. -/
def invokedOf (s : ESub) : Option Nat :=
  if s.filterPass then some s.id else none

/-- How one subscriber resolves the response channel, if at all: a raising
subscriber resolves it with None (hence the sentinel), a non-None result
resolves it with that result, a None result leaves it alone. -/
def resolveOf (s : ESub) : Option (Option EVal) :=
  if s.filterPass then
    match s.out with
    | CbOut.raise => some none
    | CbOut.ret (some v) => some (some v)
    | CbOut.ret none => none
  else none

/-- The response-future value after the subscriber loop of
`EventBus.publish`, given its value before the loop: the first resolving
subscriber wins. -/
def futSpec (f : Option EVal) (l : List ESub) : Option EVal :=
  match f with
  | some v => some v
  | none =>
    match l.findSome? resolveOf with
    | none => none
    | some none => some EVal.noResponse
    | some (some v) => some v

/-- `EventBus.subscribe` at the table level: create an empty list for a new
event name, then append the subscriber — duplicate registrations are both
kept. -/
def ebSubscribeTable (tbl : List (String × List ESub)) (eventName : String) (s : ESub) :
    List (String × List ESub) :=
  assocSet tbl eventName (((tbl.lookup eventName).getD []) ++ [s])

/- ===================== THEOREMS ===================== -/

theorem compile_eq_flatMap (p : List Char) : compile_pattern p = p.flatMap tokStr := by
  induction p with
  | nil => rfl
  | cons c p ih =>
    by_cases h1 : c = '.'
    · subst h1
      simp only [compile_pattern, replaceChar, List.flatMap_cons, List.flatMap_append] at *
      simp_all [tokStr]
    · by_cases h2 : c = '*'
      · subst h2
        simp only [compile_pattern, replaceChar, List.flatMap_cons, List.flatMap_append] at *
        simp_all [tokStr]
      · by_cases h3 : c = '?'
        · subst h3
          simp only [compile_pattern, replaceChar, List.flatMap_cons, List.flatMap_append] at *
          simp_all [tokStr]
        · simp only [compile_pattern, replaceChar, List.flatMap_cons, List.flatMap_append] at *
          simp_all [tokStr]

theorem lexRegex_esc (c : Char) (l : List Char) :
    lexRegex ('\\' :: c :: l) = (lexRegex l).map (fun ts => PTok.atom (RAtom.lit c) :: ts) :=
  rfl

theorem lexRegex_class (l : List Char) :
    lexRegex ('[' :: '^' :: '.' :: ']' :: l) =
      (lexRegex l).map (fun ts => PTok.atom RAtom.nonDot :: ts) :=
  rfl

theorem lexRegex_star (l : List Char) :
    lexRegex ('*' :: l) = (lexRegex l).map (fun ts => PTok.quant RQuant.qstar :: ts) :=
  rfl

theorem lexRegex_lit (c : Char) (hc : c ∉ rxMeta) (l : List Char) :
    lexRegex (c :: l) = (lexRegex l).map (fun ts => PTok.atom (RAtom.lit c) :: ts) := by
  have hne : ∀ d ∈ rxMeta, c ≠ d := fun d hd e => hc (e ▸ hd)
  have e1 := hne '\\' (by decide)
  have e2 := hne '[' (by decide)
  have e3 := hne '*' (by decide)
  have e4 := hne '+' (by decide)
  have e5 := hne '?' (by decide)
  rw [lexRegex.eq_def]
  split <;> first
  | rfl
  | simp_all

theorem lex_flatMap (p : List Char) (hp : safePat p) :
    lexRegex (p.flatMap tokStr) = some (p.flatMap pLex) := by
  induction p with
  | nil => rfl
  | cons c p ih =>
    have hp2 : safePat p := fun d hd => hp d (by simp [hd])
    have ih2 := ih hp2
    rcases hp c (by simp) with h | h | h | h
    · subst h
      rw [List.flatMap_cons, List.flatMap_cons,
        show tokStr '.' = ['\\', '.'] from rfl,
        show pLex '.' = [PTok.atom (RAtom.lit '.')] from rfl]
      simp only [List.cons_append, List.nil_append, List.singleton_append]
      rw [lexRegex_esc, ih2]
      rfl
    · subst h
      rw [List.flatMap_cons, List.flatMap_cons,
        show tokStr '*' = ['[', '^', '.', ']', '*'] from rfl,
        show pLex '*' = [PTok.atom RAtom.nonDot, PTok.quant RQuant.qstar] from rfl]
      simp only [List.cons_append, List.nil_append]
      rw [lexRegex_class, lexRegex_star, ih2]
      rfl
    · subst h
      rw [List.flatMap_cons, List.flatMap_cons,
        show tokStr '?' = ['[', '^', '.', ']'] from rfl,
        show pLex '?' = [PTok.atom RAtom.nonDot] from rfl]
      simp only [List.cons_append, List.nil_append, List.singleton_append]
      rw [lexRegex_class, ih2]
      rfl
    · have e3 : c ≠ '.' := fun e => h (e ▸ (by decide))
      have e4 : c ≠ '*' := fun e => h (e ▸ (by decide))
      have e5 : c ≠ '?' := fun e => h (e ▸ (by decide))
      rw [List.flatMap_cons, List.flatMap_cons]
      rw [show tokStr c = [c] from by simp [tokStr, e3, e4, e5],
        show pLex c = [PTok.atom (RAtom.lit c)] from by simp [pLex, e3, e4, e5]]
      simp only [List.singleton_append]
      rw [lexRegex_lit c h, ih2]
      rfl

theorem pLex_shape (d : Char) : ∃ a r, pLex d = PTok.atom a :: r := by
  unfold pLex
  split_ifs <;> exact ⟨_, _, rfl⟩

theorem combineToks_atom_quant (a : RAtom) (q : RQuant) (r : List PTok) :
    combineToks (PTok.atom a :: PTok.quant q :: r) =
      (combineToks r).map (fun rs => applyQuant q a :: rs) :=
  rfl

theorem combineToks_atom_atom (a b : RAtom) (r : List PTok) :
    combineToks (PTok.atom a :: PTok.atom b :: r) =
      (combineToks (PTok.atom b :: r)).map (fun rs => Rx.one a :: rs) :=
  rfl

theorem combine_step (A : RAtom) (p : List Char)
    (ihp : combineToks (p.flatMap pLex) = some (p.map tokChar)) :
    combineToks (PTok.atom A :: p.flatMap pLex) = some (Rx.one A :: p.map tokChar) := by
  cases p with
  | nil => rfl
  | cons d p2 =>
    obtain ⟨a2, r2, hd⟩ := pLex_shape d
    rw [List.flatMap_cons, hd, List.cons_append, combineToks_atom_atom,
      ← List.cons_append, ← hd, ← List.flatMap_cons, ihp]
    rfl

theorem combine_flatMap (p : List Char) :
    combineToks (p.flatMap pLex) = some (p.map tokChar) := by
  induction p with
  | nil => rfl
  | cons c p ih =>
    by_cases h2 : c = '*'
    · subst h2
      rw [List.flatMap_cons,
        show pLex '*' = [PTok.atom RAtom.nonDot, PTok.quant RQuant.qstar] from rfl]
      simp only [List.cons_append, List.nil_append]
      rw [combineToks_atom_quant, ih]
      rfl
    · by_cases h1 : c = '.'
      · subst h1
        rw [List.flatMap_cons, show pLex '.' = [PTok.atom (RAtom.lit '.')] from rfl,
          List.singleton_append, combine_step (RAtom.lit '.') p ih]
        rfl
      · by_cases h3 : c = '?'
        · subst h3
          rw [List.flatMap_cons, show pLex '?' = [PTok.atom RAtom.nonDot] from rfl,
            List.singleton_append, combine_step RAtom.nonDot p ih]
          rfl
        · rw [List.flatMap_cons, show pLex c = [PTok.atom (RAtom.lit c)] from by
            simp [pLex, h1, h2, h3], List.singleton_append,
            combine_step (RAtom.lit c) p ih]
          rw [List.map_cons, show tokChar c = Rx.one (RAtom.lit c) from by
            simp [tokChar, h1, h2, h3]]

theorem noTrailNl_nil : noTrailNl [] := by simp [noTrailNl]

theorem noTrailNl_tail (a : Char) (t : List Char) (h : noTrailNl (a :: t)) : noTrailNl t := by
  cases t with
  | nil => exact noTrailNl_nil
  | cons b r =>
    unfold noTrailNl at *
    rwa [List.getLast?_cons_cons] at h

theorem tokChar_lit (c : Char) (h2 : c ≠ '*') (h3 : c ≠ '?') :
    tokChar c = Rx.one (RAtom.lit c) := by
  by_cases h1 : c = '.'
  · subst h1; rfl
  · simp [tokChar, h1, h2, h3]

theorem matchHere_eq_segGlob (p : List Char) :
    ∀ t, noTrailNl t → matchHere (p.map tokChar) t = segGlob p t := by
  induction p with
  | nil =>
    intro t ht
    have hne : t ≠ ['\n'] := fun e => ht (by simp [e, noTrailNl])
    show decide (t = [] ∨ t = ['\n']) = decide (t = [])
    simp [hne]
  | cons c p ih =>
    intro t ht
    by_cases h2 : c = '*'
    · subst h2
      rw [List.map_cons, show tokChar '*' = Rx.star RAtom.nonDot from rfl]
      have aux : ∀ u, noTrailNl u →
          rxStar (matchHere (p.map tokChar)) RAtom.nonDot u = segStar (segGlob p) u := by
        intro u
        induction u with
        | nil => intro _; show matchHere (p.map tokChar) [] = segGlob p []
                 exact ih [] noTrailNl_nil
        | cons a u2 ihu =>
          intro hu
          show (matchHere (p.map tokChar) (a :: u2) ||
              (ratomMatch RAtom.nonDot a && rxStar (matchHere (p.map tokChar)) RAtom.nonDot u2)) =
            (segGlob p (a :: u2) || ((a != '.') && segStar (segGlob p) u2))
          rw [ih (a :: u2) hu, ihu (noTrailNl_tail a u2 hu)]
          rfl
      rw [show matchHere (Rx.star RAtom.nonDot :: p.map tokChar) t =
            rxStar (matchHere (p.map tokChar)) RAtom.nonDot t from rfl,
        aux t ht]
      cases t with
      | nil => rfl
      | cons a t2 => simp [segGlob]
    · by_cases h3 : c = '?'
      · subst h3
        rw [List.map_cons, show tokChar '?' = Rx.one RAtom.nonDot from rfl]
        cases t with
        | nil => rfl
        | cons a t2 =>
          show (ratomMatch RAtom.nonDot a && matchHere (p.map tokChar) t2) =
            segGlob ('?' :: p) (a :: t2)
          rw [ih t2 (noTrailNl_tail a t2 ht)]
          simp [segGlob, ratomMatch]
      · rw [List.map_cons, tokChar_lit c h2 h3]
        cases t with
        | nil => simp [matchHere, segGlob, h2]
        | cons a t2 =>
          show (ratomMatch (RAtom.lit c) a && matchHere (p.map tokChar) t2) =
            segGlob (c :: p) (a :: t2)
          rw [ih t2 (noTrailNl_tail a t2 ht)]
          simp [segGlob, ratomMatch, h2, h3]

theorem splitDots_shape (l : List Char) : ∃ s ss, splitDots l = s :: ss := by
  cases l with
  | nil => exact ⟨[], [], rfl⟩
  | cons c r =>
    by_cases h : c = '.'
    · exact ⟨[], splitDots r, by simp [splitDots, h]⟩
    · exact ⟨c :: (splitDots r).headI, (splitDots r).tail, by simp [splitDots, h]⟩

theorem splitDots_dot (l : List Char) : splitDots ('.' :: l) = [] :: splitDots l := by
  simp [splitDots]

theorem splitDots_cons_ne (c : Char) (l : List Char) (h : c ≠ '.') {s : List Char}
    {ss : List (List Char)} (hl : splitDots l = s :: ss) :
    splitDots (c :: l) = (c :: s) :: ss := by
  simp [splitDots, h, hl]

theorem segGlob_star (p t : List Char) : segGlob ('*' :: p) t = segStar (segGlob p) t := by
  cases t <;> rfl

theorem segGlob_qm_cons (p : List Char) (a : Char) (s2 : List Char) :
    segGlob ('?' :: p) (a :: s2) = ((a != '.') && segGlob p s2) := rfl

theorem segGlob_lit_cons (c : Char) (p : List Char) (a : Char) (s2 : List Char)
    (h2 : c ≠ '*') (h3 : c ≠ '?') :
    segGlob (c :: p) (a :: s2) = ((a == c) && segGlob p s2) := by
  simp [segGlob, h2, h3]

theorem segGlob_cons_nil (c : Char) (p : List Char) (h2 : c ≠ '*') :
    segGlob (c :: p) [] = false := by
  simp [segGlob, h2]

theorem bool_or_and (x y z : Bool) : ((x || y) && z) = ((x && z) || (y && z)) := by
  cases x <;> cases y <;> cases z <;> rfl

theorem segGlob_eq_ref (p : List Char) : ∀ t, segGlob p t = refMatches p t := by
  induction p with
  | nil =>
    intro t
    cases t with
    | nil => rfl
    | cons a t2 =>
      obtain ⟨u, uu, hu⟩ := splitDots_shape t2
      unfold refMatches
      by_cases ha : a = '.'
      · subst ha
        rw [splitDots_dot, hu]
        rfl
      · rw [splitDots_cons_ne a t2 ha hu]
        rfl
  | cons c p ih =>
    obtain ⟨s, ss, hs⟩ := splitDots_shape p
    intro t
    by_cases h2 : c = '*'
    · subst h2
      have hps : splitDots ('*' :: p) = ('*' :: s) :: ss :=
        splitDots_cons_ne '*' p (by decide) hs
      induction t with
      | nil =>
        rw [segGlob_star, show segStar (segGlob p) [] = segGlob p [] from rfl, ih []]
        unfold refMatches
        rw [hps, hs]
        show (segGlob s [] && segsMatch ss []) = (segGlob ('*' :: s) [] && segsMatch ss [])
        rw [segGlob_star, show segStar (segGlob s) [] = segGlob s [] from rfl]
      | cons a t2 iht =>
        by_cases ha : a = '.'
        · subst ha
          rw [segGlob_star]
          show (segGlob p ('.' :: t2) || (('.' != '.') && segStar (segGlob p) t2)) = _
          rw [show (('.' != '.') && segStar (segGlob p) t2) = false from rfl, Bool.or_false,
            ih ('.' :: t2)]
          unfold refMatches
          rw [hps, splitDots_dot, hs]
          show (segGlob s [] && segsMatch ss (splitDots t2)) =
            (segGlob ('*' :: s) [] && segsMatch ss (splitDots t2))
          rw [segGlob_star, show segStar (segGlob s) [] = segGlob s [] from rfl]
        · obtain ⟨u, uu, hu⟩ := splitDots_shape t2
          have hts : splitDots (a :: t2) = (a :: u) :: uu := splitDots_cons_ne a t2 ha hu
          rw [segGlob_star]
          show (segGlob p (a :: t2) || ((a != '.') && segStar (segGlob p) t2)) = _
          rw [show (a != '.') = true from by simp [ha], Bool.true_and, ← segGlob_star p t2,
            ih (a :: t2), iht]
          unfold refMatches
          rw [hps, hts, hs, hu]
          show ((segGlob s (a :: u) && segsMatch ss uu) ||
              (segGlob ('*' :: s) u && segsMatch ss uu)) =
            (segGlob ('*' :: s) (a :: u) && segsMatch ss uu)
          rw [segGlob_star s (a :: u)]
          show _ = ((segGlob s (a :: u) || ((a != '.') && segStar (segGlob s) u)) &&
            segsMatch ss uu)
          rw [show (a != '.') = true from by simp [ha], Bool.true_and, ← segGlob_star s u,
            bool_or_and]
    · by_cases h3 : c = '?'
      · subst h3
        have hps : splitDots ('?' :: p) = ('?' :: s) :: ss :=
          splitDots_cons_ne '?' p (by decide) hs
        cases t with
        | nil =>
          unfold refMatches
          rw [hps]
          rfl
        | cons a t2 =>
          by_cases ha : a = '.'
          · subst ha
            unfold refMatches
            rw [hps, splitDots_dot]
            rfl
          · obtain ⟨u, uu, hu⟩ := splitDots_shape t2
            have hts : splitDots (a :: t2) = (a :: u) :: uu := splitDots_cons_ne a t2 ha hu
            rw [segGlob_qm_cons, show (a != '.') = true from by simp [ha], Bool.true_and,
              ih t2]
            unfold refMatches
            rw [hps, hts, hs, hu]
            show (segGlob s u && segsMatch ss uu) =
              (segGlob ('?' :: s) (a :: u) && segsMatch ss uu)
            rw [segGlob_qm_cons, show (a != '.') = true from by simp [ha], Bool.true_and]
      · by_cases hc : c = '.'
        · subst hc
          cases t with
          | nil =>
            rw [segGlob_cons_nil '.' p (by decide)]
            unfold refMatches
            rw [splitDots_dot, hs]
            rfl
          | cons a t2 =>
            by_cases ha : a = '.'
            · subst ha
              rw [segGlob_lit_cons '.' p '.' t2 (by decide) (by decide),
                show (('.' : Char) == '.') = true from rfl, Bool.true_and, ih t2]
              unfold refMatches
              rw [splitDots_dot p, hs, splitDots_dot t2]
              rfl
            · obtain ⟨u, uu, hu⟩ := splitDots_shape t2
              have hts : splitDots (a :: t2) = (a :: u) :: uu := splitDots_cons_ne a t2 ha hu
              rw [segGlob_lit_cons '.' p a t2 (by decide) (by decide),
                show (a == '.') = false from by simp [ha], Bool.false_and]
              unfold refMatches
              rw [splitDots_dot p, hs, hts]
              rfl
        · have hps : splitDots (c :: p) = (c :: s) :: ss := splitDots_cons_ne c p hc hs
          cases t with
          | nil =>
            rw [segGlob_cons_nil c p h2]
            unfold refMatches
            rw [hps]
            show false = (segGlob (c :: s) [] && segsMatch ss [])
            rw [segGlob_cons_nil c s h2]
            rfl
          | cons a t2 =>
            by_cases ha : a = '.'
            · subst ha
              rw [segGlob_lit_cons c p '.' t2 h2 h3,
                show (('.' : Char) == c) = false from by simp [Ne.symm hc], Bool.false_and]
              unfold refMatches
              rw [hps, splitDots_dot t2]
              show false = (segGlob (c :: s) [] && segsMatch ss (splitDots t2))
              rw [segGlob_cons_nil c s h2]
              rfl
            · obtain ⟨u, uu, hu⟩ := splitDots_shape t2
              have hts : splitDots (a :: t2) = (a :: u) :: uu := splitDots_cons_ne a t2 ha hu
              rw [segGlob_lit_cons c p a t2 h2 h3, ih t2]
              unfold refMatches
              rw [hps, hts, hs, hu]
              show ((a == c) && (segGlob s u && segsMatch ss uu)) =
                (segGlob (c :: s) (a :: u) && segsMatch ss uu)
              rw [segGlob_lit_cons c s a u h2 h3, Bool.and_assoc]

/-- C1 (amended): for every topic pattern built from dots, the wildcards `*`
and `?`, and literal characters that are not regex metacharacters, and for
every topic that does not end in a newline, matching the topic against the
compiled pattern is deterministic and returns true exactly when the reference
segment-by-segment matcher accepts: `*` matches a run of zero or more non-dot
characters, `?` matches exactly one non-dot character, dots are literal. -/
theorem matches_equals_segment_reference (p t : List Char) (hp : safePat p) (ht : noTrailNl t) :
    matchesPattern p t = some (refMatches p t) := by
  unfold matchesPattern parseRegexBody
  rw [compile_eq_flatMap, lex_flatMap p hp]
  show (combineToks (p.flatMap pLex)).map (fun rs => matchHere rs t) = some (refMatches p t)
  rw [combine_flatMap]
  show some (matchHere (p.map tokChar) t) = some (refMatches p t)
  rw [matchHere_eq_segGlob p t ht, segGlob_eq_ref p t]

/-- Witness for C1 at the pattern a*.? and the topic ab.c. -/
theorem matches_equals_segment_reference_witness :
    safePat ['a', '*', '.', '?'] ∧ noTrailNl ['a', 'b', '.', 'c'] ∧
      matchesPattern ['a', '*', '.', '?'] ['a', 'b', '.', 'c'] =
        some (refMatches ['a', '*', '.', '?'] ['a', 'b', '.', 'c']) :=
  ⟨by decide, by decide,
    matches_equals_segment_reference ['a', '*', '.', '?'] ['a', 'b', '.', 'c'] (by decide) (by decide)⟩

/-- C1 counterexample: the claim as stated fails for the pattern a+ (a
literal plus), which `_compile_pattern` leaves unescaped: the compiled regex
accepts the topic aa while the reference segment matcher rejects it. -/
theorem matches_plus_literal_breaks_reference :
    matchesPattern ['a', '+'] ['a', 'a'] = some true ∧
      refMatches ['a', '+'] ['a', 'a'] = false := by
  decide

/- ============ bus fold lemmas ============ -/





theorem eb_fold_results (hc : Bool) (l : List ESub) :
    ∀ rs f inv, (List.foldl (EventBus.pubStep true hc) ⟨rs, f, inv⟩ l).results =
      rs ++ l.filterMap resultOf := by
  induction l with
  | nil => intro rs f inv; simp
  | cons s l ih =>
    intro rs f inv
    rw [List.foldl_cons, List.filterMap_cons]
    by_cases hf : s.filterPass
    · cases hout : s.out with
      | raise =>
        simp only [EventBus.pubStep, hf, hout, not_true, if_neg, ite_false]
        rw [ih]
        simp [resultOf, hf, hout]
      | ret v =>
        cases v with
        | none =>
          simp only [EventBus.pubStep, hf, hout, not_true, if_neg, ite_false]
          rw [ih]
          simp [resultOf, hf, hout]
        | some w =>
          simp only [EventBus.pubStep, hf, hout, not_true, if_neg, ite_false, if_pos]
          rw [ih]
          simp [resultOf, hf, hout]
    · simp only [EventBus.pubStep, hf]
      rw [if_pos (by simp [hf]), ih]
      simp [resolveOf, resultOf, hf]

theorem eb_fold_invoked (hc : Bool) (l : List ESub) :
    ∀ rs f inv, (List.foldl (EventBus.pubStep true hc) ⟨rs, f, inv⟩ l).invoked =
      inv ++ l.filterMap invokedOf := by
  induction l with
  | nil => intro rs f inv; simp
  | cons s l ih =>
    intro rs f inv
    rw [List.foldl_cons, List.filterMap_cons]
    by_cases hf : s.filterPass
    · cases hout : s.out with
      | raise =>
        simp only [EventBus.pubStep, hf, hout, not_true, ite_false]
        rw [ih]
        simp [invokedOf, hf]
      | ret v =>
        cases v with
        | none =>
          simp only [EventBus.pubStep, hf, hout, not_true, ite_false]
          rw [ih]
          simp [invokedOf, hf]
        | some w =>
          simp only [EventBus.pubStep, hf, hout, not_true, ite_false]
          rw [ih]
          simp [invokedOf, hf]
    · simp only [EventBus.pubStep, hf]
      rw [if_pos (by simp [hf]), ih]
      simp [invokedOf, hf]

theorem eb_fold_fut_nochannel (l : List ESub) :
    ∀ rs f inv, (List.foldl (EventBus.pubStep true false) ⟨rs, f, inv⟩ l).fut = f := by
  induction l with
  | nil => intro rs f inv; rfl
  | cons s l ih =>
    intro rs f inv
    rw [List.foldl_cons]
    by_cases hf : s.filterPass
    · cases hout : s.out with
      | raise =>
        simp only [EventBus.pubStep, hf, hout, not_true, ite_false, Bool.and_false]
        rw [ih]
        rfl
      | ret v =>
        cases v with
        | none =>
          simp only [EventBus.pubStep, hf, hout, not_true, ite_false]
          rw [ih]
        | some w =>
          simp only [EventBus.pubStep, hf, hout, not_true, ite_false, Bool.and_false]
          rw [ih]
          rfl
    · simp only [EventBus.pubStep, hf]
      rw [if_pos (by simp [hf]), ih]

theorem eb_fold_fut (l : List ESub) :
    ∀ rs f inv, (List.foldl (EventBus.pubStep true true) ⟨rs, f, inv⟩ l).fut =
      futSpec f l := by
  induction l with
  | nil =>
    intro rs f inv
    cases f <;> rfl
  | cons s l ih =>
    intro rs f inv
    rw [List.foldl_cons]
    by_cases hf : s.filterPass
    · cases hout : s.out with
      | raise =>
        simp only [EventBus.pubStep, hf, hout, not_true, ite_false, Bool.and_self, ite_true]
        rw [ih]
        cases f with
        | some v => rfl
        | none =>
          show futSpec (some EVal.noResponse) l = futSpec none (s :: l)
          unfold futSpec
          rw [List.findSome?_cons, show resolveOf s = some none from by simp [resolveOf, hf, hout]]
      | ret v =>
        cases v with
        | none =>
          simp only [EventBus.pubStep, hf, hout, not_true, ite_false]
          rw [ih]
          unfold futSpec
          cases f with
          | some v => rfl
          | none =>
            rw [List.findSome?_cons, show resolveOf s = none from by simp [resolveOf, hf, hout]]
        | some w =>
          simp only [EventBus.pubStep, hf, hout, not_true, ite_false, Bool.and_self, ite_true]
          rw [ih]
          cases f with
          | some v => rfl
          | none =>
            show futSpec (some w) l = futSpec none (s :: l)
            unfold futSpec
            rw [List.findSome?_cons, show resolveOf s = some (some w) from by
              simp [resolveOf, hf, hout]]
    · simp only [EventBus.pubStep, hf]
      rw [if_pos (by simp [hf]), ih]
      cases f with
      | some v => rfl
      | none =>
        unfold futSpec
        rw [List.findSome?_cons, show resolveOf s = none from by simp [resolveOf, hf]]

theorem eb_publish_nochannel (subs : List ESub) :
    EventBus.publish subs true false =
      ⟨subs.filterMap resultOf, none, subs.filterMap invokedOf⟩ := by
  have h1 := eb_fold_results false subs [] none []
  have h2 := eb_fold_invoked false subs [] none []
  have h3 := eb_fold_fut_nochannel subs [] none []
  unfold EventBus.publish
  simp only [Bool.and_false, Bool.false_eq_true, if_false]
  rw [show (List.foldl (EventBus.pubStep true false) ⟨[], none, []⟩ subs) =
    (⟨(List.foldl (EventBus.pubStep true false) ⟨[], none, []⟩ subs).results,
      (List.foldl (EventBus.pubStep true false) ⟨[], none, []⟩ subs).fut,
      (List.foldl (EventBus.pubStep true false) ⟨[], none, []⟩ subs).invoked⟩ : PubState)
    from rfl, h1, h2, h3]
  simp

theorem eb_publish_channel (subs : List ESub) :
    EventBus.publish subs true true =
      ⟨subs.filterMap resultOf,
       (if (subs.filterMap resultOf).isEmpty then trigger (futSpec none subs) none
        else futSpec none subs),
       subs.filterMap invokedOf⟩ := by
  have h1 := eb_fold_results true subs [] none []
  have h2 := eb_fold_invoked true subs [] none []
  have h3 := eb_fold_fut subs [] none []
  unfold EventBus.publish
  simp only [Bool.true_and, Bool.and_true]
  rw [show (List.foldl (EventBus.pubStep true true) ⟨[], none, []⟩ subs) =
    (⟨(List.foldl (EventBus.pubStep true true) ⟨[], none, []⟩ subs).results,
      (List.foldl (EventBus.pubStep true true) ⟨[], none, []⟩ subs).fut,
      (List.foldl (EventBus.pubStep true true) ⟨[], none, []⟩ subs).invoked⟩ : PubState)
    from rfl, h1, h2, h3]
  simp only [List.nil_append]
  by_cases he : (subs.filterMap resultOf).isEmpty
  · simp [he]
  · simp [he]

/- ============ C2 / C9 ============ -/

/-- C2: in both `MessageBus.publish` and `EventBus.publish`, a publish with
one raising subscriber still invokes every other subscriber, returns normally,
and the raising subscriber contributes nothing to the result list: the
results are exactly those of the surrounding subscribers. -/
theorem publish_isolates_raising_subscriber (l1 l2 : List MSub) (i : Nat) (e1 e2 : List ESub) (j : Nat) :
    MessageBus.publish (l1 ++ ⟨i, CbOut.raise⟩ :: l2) =
      ((MessageBus.publish l1).1 ++ (MessageBus.publish l2).1,
       (MessageBus.publish l1).2 ++ i :: (MessageBus.publish l2).2) ∧
    EventBus.publish (e1 ++ ⟨j, true, CbOut.raise⟩ :: e2) true false =
      ⟨(EventBus.publish e1 true false).results ++ (EventBus.publish e2 true false).results,
       none,
       (EventBus.publish e1 true false).invoked ++
         j :: (EventBus.publish e2 true false).invoked⟩ := by
  constructor
  · simp [MessageBus.publish, List.map_append, List.filterMap_append, execCallback]
  · rw [eb_publish_nochannel, eb_publish_nochannel, eb_publish_nochannel]
    simp [List.filterMap_append, List.filterMap_cons, resultOf, invokedOf]

/-- C9: in both buses the result list of a publish never contains nil: a
subscriber returning None leaves exactly the same result list as if it had
raised or had not been subscribed at all. -/
theorem publish_results_hide_nil_returners (l1 l2 : List MSub) (i j : Nat) (e1 e2 : List ESub) (k m : Nat) :
    (MessageBus.publish (l1 ++ ⟨i, CbOut.ret none⟩ :: l2)).1 =
      (MessageBus.publish (l1 ++ l2)).1 ∧
    (MessageBus.publish (l1 ++ ⟨i, CbOut.ret none⟩ :: l2)).1 =
      (MessageBus.publish (l1 ++ ⟨j, CbOut.raise⟩ :: l2)).1 ∧
    (EventBus.publish (e1 ++ ⟨k, true, CbOut.ret none⟩ :: e2) true false).results =
      (EventBus.publish (e1 ++ e2) true false).results ∧
    (EventBus.publish (e1 ++ ⟨k, true, CbOut.ret none⟩ :: e2) true false).results =
      (EventBus.publish (e1 ++ ⟨m, true, CbOut.raise⟩ :: e2) true false).results := by
  refine ⟨?_, ?_, ?_, ?_⟩
  · simp [MessageBus.publish, List.map_append, List.filterMap_append, execCallback]
  · simp [MessageBus.publish, List.map_append, List.filterMap_append, execCallback]
  · rw [eb_publish_nochannel, eb_publish_nochannel]
    simp [List.filterMap_append, List.filterMap_cons, resultOf]
  · rw [eb_publish_nochannel, eb_publish_nochannel]
    simp [List.filterMap_append, List.filterMap_cons, resultOf]

/- ============ C5 / C6 ============ -/

/-- C5 (amended): a request over subscribers in which every subscriber
before the first non-nil responder either fails its filter or returns None
receives that responder's result (the first non-nil handler result), for any
subscribers after it, and leaves no pending entry. -/
theorem request_returns_first_nonnil_when_no_earlier_raiser (l1 l2 : List ESub) (i : Nat) (v : EVal)
    (h1 : ∀ x ∈ l1, x.filterPass → x.out = CbOut.ret none) :
    EventBus.request (l1 ++ ⟨i, true, CbOut.ret (some v)⟩ :: l2) = (some v, false) := by
  have hne : (l1 ++ (⟨i, true, CbOut.ret (some v)⟩ : ESub) :: l2).isEmpty = false := by
    simp
  unfold EventBus.request
  rw [hne]
  simp only [Bool.false_eq_true, if_false]
  rw [eb_publish_channel]
  have hres : resultOf ⟨i, true, CbOut.ret (some v)⟩ = some v := rfl
  have hfind1 : List.findSome? resolveOf l1 = none := by
    rw [List.findSome?_eq_none_iff]
    intro x hx
    by_cases hp : x.filterPass
    · simp [resolveOf, hp, h1 x hx hp]
    · simp [resolveOf, hp]
  have hfut : futSpec none (l1 ++ ⟨i, true, CbOut.ret (some v)⟩ :: l2) = some v := by
    unfold futSpec
    rw [List.findSome?_append, hfind1, List.findSome?_cons]
    rfl
  rw [hfut]
  have : ((l1 ++ (⟨i, true, CbOut.ret (some v)⟩ : ESub) :: l2).filterMap resultOf).isEmpty
      = false := by
    simp [List.filterMap_append, List.filterMap_cons, hres]
  rw [this]
  simp

/-- C6 (amended): a request whose matching handlers produce no non-nil
result returns the no_response sentinel rather than nil (nil only with zero
subscribers), and afterwards the pending-request table no longer contains the
request's correlation id. -/
theorem request_without_result_returns_sentinel (subs : List ESub)
    (h : ∀ x ∈ subs, x.filterPass → (x.out = CbOut.raise ∨ x.out = CbOut.ret none)) :
    EventBus.request subs = ((if subs.isEmpty then none else some EVal.noResponse), false) := by
  cases hs : subs.isEmpty with
  | true =>
    have : subs = [] := by
      cases subs with
      | nil => rfl
      | cons a l => simp at hs
    subst this
    rfl
  | false =>
    unfold EventBus.request
    rw [hs]
    simp only [Bool.false_eq_true, if_false]
    rw [eb_publish_channel]
    have hres : subs.filterMap resultOf = [] := by
      rw [List.filterMap_eq_nil_iff]
      intro x hx
      by_cases hp : x.filterPass
      · rcases h x hx hp with ho | ho <;> simp [resultOf, hp, ho]
      · simp [resultOf, hp]
    rw [hres]
    have hfut : trigger (futSpec none subs) none = some EVal.noResponse := by
      unfold futSpec
      cases hfind : List.findSome? resolveOf subs with
      | none => rfl
      | some r =>
        obtain ⟨x, hx, hrx⟩ := List.exists_of_findSome?_eq_some hfind
        have hr : r = none := by
          by_cases hp : x.filterPass
          · rcases h x hx hp with ho | ho
            · simp [resolveOf, hp, ho] at hrx
              exact hrx.symm
            · simp [resolveOf, hp, ho] at hrx
          · simp [resolveOf, hp] at hrx
        subst hr
        rfl
    simp [hfut]

/- ============ assoc list helpers ============ -/

theorem lookup_none_of_not_mem_keys {β : Type} (l : List (String × β)) (k : String)
    (h : k ∉ l.map Prod.fst) : l.lookup k = none := by
  induction l with
  | nil => rfl
  | cons p l ih =>
    obtain ⟨pk, pv⟩ := p
    simp only [List.map_cons, List.mem_cons, not_or] at h
    rw [List.lookup_cons, show (k == pk) = false from by simp [h.1]]
    exact ih h.2

theorem not_mem_keys_of_lookup_none {β : Type} (l : List (String × β)) (k : String)
    (h : l.lookup k = none) : k ∉ l.map Prod.fst := by
  induction l with
  | nil => simp
  | cons p l ih =>
    obtain ⟨pk, pv⟩ := p
    rw [List.lookup_cons] at h
    simp only [List.map_cons, List.mem_cons, not_or]
    cases hk : (k == pk) with
    | true => rw [hk] at h; exact absurd h (by simp)
    | false =>
      rw [hk] at h
      exact ⟨by simpa using hk, ih h⟩

theorem lookup_append_of_none {β : Type} (l1 l2 : List (String × β)) (k : String)
    (h : l1.lookup k = none) : (l1 ++ l2).lookup k = l2.lookup k := by
  induction l1 with
  | nil => rfl
  | cons p l ih =>
    obtain ⟨pk, pv⟩ := p
    rw [List.lookup_cons] at h
    cases hk : (k == pk) with
    | true => rw [hk] at h; exact absurd h (by simp)
    | false =>
      rw [hk] at h
      rw [List.cons_append, List.lookup_cons, hk]
      exact ih h

theorem lookup_map_update {β : Type} (l : List (String × β)) (m : String) (g : β → β) :
    (l.map (fun p => if p.1 = m then (m, g p.2) else p)).lookup m = (l.lookup m).map g := by
  induction l with
  | nil => rfl
  | cons p l ih =>
    obtain ⟨pk, pv⟩ := p
    by_cases hp : pk = m
    · subst hp
      simp only [List.map_cons, if_pos rfl]
      rw [List.lookup_cons, List.lookup_cons]
      simp [ih]
    · simp only [List.map_cons, if_neg hp]
      have hk : ¬m = pk := fun e => hp e.symm
      rw [List.lookup_cons, List.lookup_cons, show (m == pk) = false from by simp [hk]]
      exact ih

theorem assocSet_cons_ne {β : Type} (pk : String) (pv : β) (l : List (String × β))
    (k : String) (v : β) (hp : pk ≠ k) :
    assocSet ((pk, pv) :: l) k v = (pk, pv) :: assocSet l k v := by
  have hk : ¬k = pk := fun e => hp e.symm
  unfold assocSet
  rw [List.lookup_cons, show (k == pk) = false from by simp [hk]]
  by_cases h2 : (l.lookup k).isSome
  · rw [if_pos h2, if_pos h2, List.map_cons, if_neg hp]
  · rw [if_neg h2, if_neg h2, List.cons_append]

theorem assocSet_cons_eq {β : Type} (pk : String) (pv : β) (l : List (String × β))
    (k : String) (v : β) (hp : pk = k) :
    assocSet ((pk, pv) :: l) k v =
      (k, v) :: l.map (fun q => if q.1 = k then (k, v) else q) := by
  subst hp
  unfold assocSet
  rw [List.lookup_cons, show (pk == pk) = true from by simp]
  rw [if_pos (by simp), List.map_cons, if_pos rfl]

theorem assocSet_lookup_self {β : Type} (l : List (String × β)) (k : String) (v : β) :
    (assocSet l k v).lookup k = some v := by
  induction l with
  | nil =>
    unfold assocSet
    simp [List.lookup_cons]
  | cons p l ih =>
    obtain ⟨pk, pv⟩ := p
    by_cases hp : pk = k
    · rw [assocSet_cons_eq pk pv l k v hp, List.lookup_cons, show (k == k) = true from by simp]
    · have hk : ¬k = pk := fun e => hp e.symm
      rw [assocSet_cons_ne pk pv l k v hp, List.lookup_cons,
        show (k == pk) = false from by simp [hk]]
      exact ih

theorem assocSet_absorb {β : Type} (l : List (String × β)) (k : String) (v1 v2 : β) :
    assocSet (assocSet l k v1) k v2 = assocSet l k v2 := by
  induction l with
  | nil =>
    rw [show assocSet ([] : List (String × β)) k v1 = [(k, v1)] from rfl,
      show assocSet ([] : List (String × β)) k v2 = [(k, v2)] from rfl,
      assocSet_cons_eq k v1 [] k v2 rfl]
    rfl
  | cons p l ih =>
    obtain ⟨pk, pv⟩ := p
    by_cases hp : pk = k
    · subst hp
      rw [assocSet_cons_eq pk pv l pk v1 rfl, assocSet_cons_eq pk v1 _ pk v2 rfl,
        assocSet_cons_eq pk pv l pk v2 rfl, List.map_map]
      have hfun : ((fun q : String × β => if q.1 = pk then (pk, v2) else q) ∘
          (fun q : String × β => if q.1 = pk then (pk, v1) else q)) =
          (fun q : String × β => if q.1 = pk then (pk, v2) else q) := by
        funext q
        by_cases hq : q.1 = pk <;> simp [hq]
      rw [hfun]
    · rw [assocSet_cons_ne pk pv l k v1 hp, assocSet_cons_ne pk pv _ k v2 hp,
        assocSet_cons_ne pk pv l k v2 hp, ih]

theorem assocSet_keys_nodup {β : Type} (l : List (String × β)) (k : String) (v : β)
    (h : (l.map Prod.fst).Nodup) : ((assocSet l k v).map Prod.fst).Nodup := by
  unfold assocSet
  by_cases hp : (l.lookup k).isSome
  · rw [if_pos hp, List.map_map]
    have hfun : (Prod.fst ∘ fun p : String × β => if p.1 = k then (k, v) else p) =
        Prod.fst := by
      funext q
      by_cases hq : q.1 = k <;> simp [hq]
    rwa [hfun]
  · rw [if_neg hp, List.map_append]
    have hnone : l.lookup k = none := by
      cases hh : l.lookup k
      · rfl
      · rw [hh] at hp; simp at hp
    have hk := not_mem_keys_of_lookup_none l k hnone
    simp [List.nodup_append, h, hk]

theorem assocSet_filter_self {β : Type} (l : List (String × β)) (k : String) (v : β)
    (h : (l.map Prod.fst).Nodup) :
    (assocSet l k v).filter (fun q => q.1 == k) = [(k, v)] := by
  induction l with
  | nil =>
    rw [show assocSet ([] : List (String × β)) k v = [(k, v)] from rfl]
    simp
  | cons p l ih =>
    obtain ⟨pk, pv⟩ := p
    simp only [List.map_cons, List.nodup_cons] at h
    by_cases hp : pk = k
    · subst hp
      rw [assocSet_cons_eq pk pv l pk v rfl]
      rw [List.filter_cons_of_pos (by simp)]
      have : (l.map (fun q : String × β => if q.1 = pk then (pk, v) else q)).filter
          (fun q => q.1 == pk) = [] := by
        rw [List.filter_eq_nil_iff]
        intro a ha
        obtain ⟨q, hq, hqa⟩ := List.mem_map.mp ha
        have hqk : q.1 ≠ pk := by
          intro e
          exact h.1 (e ▸ List.mem_map_of_mem Prod.fst hq)
        rw [if_neg hqk] at hqa
        subst hqa
        simp [hqk]
      rw [this]
    · rw [assocSet_cons_ne pk pv l k v hp,
        List.filter_cons_of_neg (by simp [hp])]
      exact ih h.2

/- ============ C7 / C3 config lemmas ============ -/

theorem ensure_lookup_isSome {α : Type} (mgr : CfgMgr α) (m : String) :
    (((ConfigManager.ensureModule mgr m).data).lookup m).isSome := by
  unfold ConfigManager.ensureModule
  by_cases h : (mgr.data.lookup m).isSome
  · rw [if_pos h]; exact h
  · rw [if_neg h]
    have hnone : mgr.data.lookup m = none := by
      cases hh : mgr.data.lookup m
      · rfl
      · rw [hh] at h; simp at h
    show ((mgr.data ++ [(m, [])]).lookup m).isSome
    rw [lookup_append_of_none _ _ _ hnone]
    simp [List.lookup_cons]

theorem oldValue_ensure {α : Type} (mgr : CfgMgr α) (m k : String) :
    ConfigManager.oldValue (ConfigManager.ensureModule mgr m) m k =
      ConfigManager.oldValue mgr m k := by
  unfold ConfigManager.ensureModule ConfigManager.oldValue
  by_cases h : (mgr.data.lookup m).isSome
  · rw [if_pos h]
  · rw [if_neg h]
    have hnone : mgr.data.lookup m = none := by
      cases hh : mgr.data.lookup m
      · rfl
      · rw [hh] at h; simp at h
    show ((((mgr.data ++ [(m, [])]).lookup m).getD []).lookup k).getD none = _
    rw [lookup_append_of_none _ _ _ hnone, hnone]
    simp [List.lookup_cons]

theorem setStore_stored {α : Type} (mgr : CfgMgr α) (m k : String) (v : Option α) :
    ConfigManager.oldValue (ConfigManager.setStore mgr m k v) m k = v := by
  have hsome := ensure_lookup_isSome mgr m
  obtain ⟨inner, hinner⟩ : ∃ i, (ConfigManager.ensureModule mgr m).data.lookup m = some i := by
    cases hh : (ConfigManager.ensureModule mgr m).data.lookup m
    · rw [hh] at hsome; simp at hsome
    · exact ⟨_, rfl⟩
  unfold ConfigManager.oldValue ConfigManager.setStore ConfigManager.setData
  rw [lookup_map_update (ConfigManager.ensureModule mgr m).data m (fun i => assocSet i k v),
    hinner]
  show ((assocSet inner k v).lookup k).getD none = v
  rw [assocSet_lookup_self]
  rfl

theorem set_mgr_eq {α : Type} [DecidableEq α] (mgr : CfgMgr α) (m k : String) (v : Option α) :
    (ConfigManager.set mgr m k v).mgr = ConfigManager.setStore mgr m k v := by
  unfold ConfigManager.set
  by_cases h : ConfigManager.oldValue (ConfigManager.ensureModule mgr m) m k = v
  · rw [if_pos h]
  · rw [if_neg h]

theorem set_events_eq {α : Type} [DecidableEq α] (mgr : CfgMgr α) (m k : String)
    (v : Option α) :
    (ConfigManager.set mgr m k v).events =
      (if ConfigManager.oldValue mgr m k = v then [] else [(m ++ "." ++ k, v)]) := by
  unfold ConfigManager.set
  rw [oldValue_ensure]
  by_cases h : ConfigManager.oldValue mgr m k = v
  · rw [if_pos h, if_pos h]
  · rw [if_neg h, if_neg h]

/-- C7: `ConfigManager.set` stores the value, persists the whole structure
(saved equals data), and publishes a change notification on topic module.key
exactly when the new value differs by value from the previously stored one
(None when the key was absent); a second identical set publishes nothing, so
two consecutive identical sets yield exactly one notification, never two. -/
theorem set_notifies_iff_value_changed {α : Type} [DecidableEq α] (mgr : CfgMgr α) (m k : String) (v : Option α)
    (hne : ConfigManager.oldValue mgr m k ≠ v) :
    ((ConfigManager.set mgr m k v).events =
      (if ConfigManager.oldValue mgr m k = v then [] else [(m ++ "." ++ k, v)])) ∧
    (ConfigManager.set mgr m k v).mgr.saved = (ConfigManager.set mgr m k v).mgr.data ∧
    (ConfigManager.set (ConfigManager.set mgr m k v).mgr m k v).events = [] ∧
    ((ConfigManager.set mgr m k v).events ++
      (ConfigManager.set (ConfigManager.set mgr m k v).mgr m k v).events).length = 1 := by
  have h2 : (ConfigManager.set (ConfigManager.set mgr m k v).mgr m k v).events = [] := by
    rw [set_events_eq, set_mgr_eq, if_pos (setStore_stored mgr m k v)]
  refine ⟨set_events_eq mgr m k v, ?_, h2, ?_⟩
  · rw [set_mgr_eq]
    rfl
  · rw [set_events_eq, if_neg hne, h2]
    rfl

/- ============ C3 (concrete) ============ -/

/-- C3 (code bug evaluation): on an empty store, register(m, k, default 1,
cb) persists the default but DOES invoke cb once with the default, because
`register` subscribes cb before calling `set` and `set` publishes whenever
the old value (None for an absent key) differs from the new one.  A later
set(m, k, 2) then invokes cb exactly once with 2.  Only a None default fires
no callback. -/
theorem register_on_absent_key_fires_callback :
    (ConfigManager.register (CfgMgr.mk [] [] ⟨[]⟩ : CfgMgr Nat) "m" "k" (some 1) 7).calls =
      [("m", 7, some 1)] ∧
    (ConfigManager.register (CfgMgr.mk [] [] ⟨[]⟩ : CfgMgr Nat) "m" "k" (some 1) 7).events =
      [("m.k", some 1)] ∧
    (ConfigManager.set
        (ConfigManager.register (CfgMgr.mk [] [] ⟨[]⟩ : CfgMgr Nat) "m" "k" (some 1) 7).mgr
        "m" "k" (some 2)).calls = [("m", 7, some 2)] ∧
    (ConfigManager.register (CfgMgr.mk [] [] ⟨[]⟩ : CfgMgr Nat) "m" "k" (none : Option Nat)
        9).calls = [] := by
  refine ⟨?_, ?_, ?_, ?_⟩ <;> rfl

/- ============ C4 ============ -/

theorem stop_modules_shutdownCount (mods : List String) :
    Controller.shutdownCount (Controller.stop_modules mods) = 1 := by
  unfold Controller.stop_modules Controller.shutdownCount
  rw [List.count_append]
  have h0 : (mods.reverse.map CtrlEvt.stopModule).count CtrlEvt.busCleanup = 0 := by
    rw [List.count_eq_zero]
    intro hmem
    obtain ⟨x, _, hx⟩ := List.mem_map.mp hmem
    exact CtrlEvt.noConfusion hx
  rw [h0]
  rfl

/-- C4 (code bug evaluation): `Controller.run` executes the shutdown
sequence (stop every module in reverse order, then clean up the bus) exactly
once when the wait loop ends normally or by cancellation, but TWICE when a
generic exception escapes the wait loop — once in the except-handler and once
more in the finally block — and then re-raises. -/
theorem run_shutdown_sequence_counts (mods : List String) (bodyTrace : List CtrlEvt) :
    (Controller.run mods bodyTrace Controller.RunEnd.normal).1 =
        bodyTrace ++ Controller.stop_modules mods ∧
    (Controller.run mods bodyTrace Controller.RunEnd.cancelled).1 =
        bodyTrace ++ Controller.stop_modules mods ∧
    (Controller.run mods bodyTrace Controller.RunEnd.failed).1 =
        bodyTrace ++ (Controller.stop_modules mods ++ Controller.stop_modules mods) ∧
    (Controller.run mods bodyTrace Controller.RunEnd.failed).2 = true ∧
    Controller.shutdownCount (Controller.run mods bodyTrace Controller.RunEnd.normal).1 =
        Controller.shutdownCount bodyTrace + 1 ∧
    Controller.shutdownCount (Controller.run mods bodyTrace Controller.RunEnd.cancelled).1 =
        Controller.shutdownCount bodyTrace + 1 ∧
    Controller.shutdownCount (Controller.run mods bodyTrace Controller.RunEnd.failed).1 =
        Controller.shutdownCount bodyTrace + 2 := by
  unfold Controller.run Controller.pyTryExceptFinally
  refine ⟨rfl, by simp, by simp, rfl, ?_, ?_, ?_⟩
  · unfold Controller.shutdownCount
    rw [List.count_append]
    have := stop_modules_shutdownCount mods
    unfold Controller.shutdownCount at this
    rw [this]
  · unfold Controller.shutdownCount
    rw [show bodyTrace ++ [] ++ Controller.stop_modules mods =
      bodyTrace ++ Controller.stop_modules mods from by simp, List.count_append]
    have := stop_modules_shutdownCount mods
    unfold Controller.shutdownCount at this
    rw [this]
  · unfold Controller.shutdownCount
    rw [List.append_assoc, List.count_append, List.count_append]
    have := stop_modules_shutdownCount mods
    unfold Controller.shutdownCount at this
    rw [this]

/- ============ C8 ============ -/

theorem discover_aux (files : List DirManifest) :
    ∀ acc : List (String × ModuleInfo),
      (acc.map Prod.fst ++
        (files.filterMap ModuleManager.manifestInfo).map ModuleInfo.full_name).Nodup →
      List.foldl ModuleManager.discoverStep acc files =
        acc ++ (files.filterMap ModuleManager.manifestInfo).map
          (fun mi => (mi.full_name, mi)) := by
  induction files with
  | nil => intro acc _; simp
  | cons f files ih =>
    intro acc h
    rw [List.foldl_cons]
    cases f with
    | badJson =>
      rw [show ModuleManager.discoverStep acc DirManifest.badJson = acc from rfl,
        ih acc (by simpa [ModuleManager.manifestInfo] using h)]
      simp [ModuleManager.manifestInfo]
    | json kv =>
      cases hmi : ModuleManager.processManifest kv with
      | none =>
        have hstep : ModuleManager.discoverStep acc (DirManifest.json kv) = acc := by
          simp [ModuleManager.discoverStep, hmi]
        have hmf : ModuleManager.manifestInfo (DirManifest.json kv) = none := by
          simp [ModuleManager.manifestInfo, hmi]
        rw [hstep, ih acc (by simpa [hmf] using h)]
        simp [hmf]
      | some mi =>
        have hmf : ModuleManager.manifestInfo (DirManifest.json kv) = some mi := by
          simp [ModuleManager.manifestInfo, hmi]
        rw [List.filterMap_cons, hmf] at h ⊢
        have hnotin : mi.full_name ∉ acc.map Prod.fst := by
          intro hmem
          rw [List.map_cons] at h
          exact (List.nodup_append.mp h).2.2 hmem (List.mem_cons_self _ _)
        have hstep : ModuleManager.discoverStep acc (DirManifest.json kv) =
            acc ++ [(mi.full_name, mi)] := by
          show (ModuleManager.discoverStep acc (DirManifest.json kv)) = _
          simp only [ModuleManager.discoverStep, hmi]
          unfold assocSet
          rw [lookup_none_of_not_mem_keys acc mi.full_name hnotin]
          rfl
        rw [hstep, ih (acc ++ [(mi.full_name, mi)]) (by
          rw [List.map_append]
          simpa [List.append_assoc] using h)]
        simp

/-- C8 (amended): over any list of manifests whose well-formed entries
carry pairwise distinct full names, `discover_modules` returns exactly one
descriptor per well-formed manifest (in order), skips unparsable manifests
and manifests missing a required field, and, being a total function with
every per-file exception caught, never raises. -/
theorem discover_keeps_wellformed_skips_defective (files : List DirManifest)
    (h : ((files.filterMap ModuleManager.manifestInfo).map ModuleInfo.full_name).Nodup) :
    ModuleManager.discover_modules files =
      (files.filterMap ModuleManager.manifestInfo).map (fun mi => (mi.full_name, mi)) := by
  unfold ModuleManager.discover_modules
  exact discover_aux files [] (by simpa using h)

/-- C8 counterexample: two well-formed directories declaring the same
category.module_name collapse to a single descriptor (the later one wins), so
discovery does not return a descriptor for every well-formed directory. -/
theorem discover_duplicate_fullname_drops_descriptor :
    ModuleManager.discover_modules
        [DirManifest.json [("module_name", "a"), ("category", "c"), ("entry", "e1.py"),
            ("class_name", "A")],
         DirManifest.json [("module_name", "a"), ("category", "c"), ("entry", "e2.py"),
            ("class_name", "A")],
         DirManifest.json [("module_name", "x")]] =
      [("c.a", ⟨"a", "c.a", "c", "e2.py", "A"⟩)] := by
  rfl

/- ============ C10 ============ -/


theorem mem_of_lookup_some {β : Type} (l : List (String × β)) (k : String) (b : β)
    (h : l.lookup k = some b) : (k, b) ∈ l := by
  induction l with
  | nil => exact absurd h (by simp)
  | cons p l ih =>
    obtain ⟨pk, pv⟩ := p
    rw [List.lookup_cons] at h
    cases hk : (k == pk) with
    | true =>
      rw [hk] at h
      have h1 : pv = b := by simpa using h
      have h2 : k = pk := by simpa using hk
      subst h1
      subst h2
      exact List.mem_cons_self _ _
    | false =>
      rw [hk] at h
      exact List.mem_cons_of_mem _ (ih h)

theorem cfg_subscribe_wf (b : CfgBus) (m e : String) (c : Nat) (hb : wfBus b) :
    wfBus (ConfigEventBus.subscribe b m e c) := by
  unfold ConfigEventBus.subscribe
  by_cases hp : (b.subscribers.lookup e).isSome
  · rw [if_pos hp]
    constructor
    · show ((b.subscribers.map _).map Prod.fst).Nodup
      rw [List.map_map]
      have hfun : (Prod.fst ∘ fun p : String × List (String × Nat) =>
          if p.1 = e then (e, assocSet p.2 m c) else p) = Prod.fst := by
        funext q
        by_cases hq : q.1 = e <;> simp [hq]
      rw [hfun]
      exact hb.1
    · intro q hq
      obtain ⟨p, hpmem, hpq⟩ := List.mem_map.mp hq
      by_cases hpe : p.1 = e
      · rw [if_pos hpe] at hpq
        subst hpq
        exact assocSet_keys_nodup p.2 m c (hb.2 p hpmem)
      · rw [if_neg hpe] at hpq
        subst hpq
        exact hb.2 p hpmem
  · rw [if_neg hp]
    have hnone : b.subscribers.lookup e = none := by
      cases hh : b.subscribers.lookup e
      · rfl
      · rw [hh] at hp; simp at hp
    constructor
    · show ((b.subscribers ++ [(e, [(m, c)])]).map Prod.fst).Nodup
      rw [List.map_append]
      have hne := not_mem_keys_of_lookup_none b.subscribers e hnone
      simp [List.nodup_append, hb.1, hne]
    · intro q hq
      rcases List.mem_append.mp hq with hq1 | hq1
      · exact hb.2 q hq1
      · have : q = (e, [(m, c)]) := by simpa using hq1
        subst this
        simp

theorem cfg_subscribe_absorb (b : CfgBus) (m e : String) (c1 c2 : Nat) :
    ConfigEventBus.subscribe (ConfigEventBus.subscribe b m e c1) m e c2 =
      ConfigEventBus.subscribe b m e c2 := by
  unfold ConfigEventBus.subscribe
  by_cases hp : (b.subscribers.lookup e).isSome
  · rw [if_pos hp]
    have hp2 : ((b.subscribers.map (fun p =>
        if p.1 = e then (e, assocSet p.2 m c1) else p)).lookup e).isSome := by
      rw [lookup_map_update b.subscribers e (fun i => assocSet i m c1)]
      cases hh : b.subscribers.lookup e
      · rw [hh] at hp; simp at hp
      · simp
    rw [if_pos hp2, if_pos hp]
    show CfgBus.mk _ = CfgBus.mk _
    rw [List.map_map]
    have hfun : ((fun p : String × List (String × Nat) =>
          if p.1 = e then (e, assocSet p.2 m c2) else p) ∘
        (fun p : String × List (String × Nat) =>
          if p.1 = e then (e, assocSet p.2 m c1) else p)) =
        (fun p : String × List (String × Nat) =>
          if p.1 = e then (e, assocSet p.2 m c2) else p) := by
      funext p
      by_cases hpe : p.1 = e
      · simp [hpe, assocSet_absorb]
      · simp [hpe]
    rw [hfun]
  · rw [if_neg hp]
    have hnone : b.subscribers.lookup e = none := by
      cases hh : b.subscribers.lookup e
      · rfl
      · rw [hh] at hp; simp at hp
    have hp2 : (((b.subscribers ++ [(e, [(m, c1)])]).lookup e)).isSome := by
      rw [lookup_append_of_none _ _ _ hnone]
      simp [List.lookup_cons]
    rw [if_pos hp2, if_neg hp]
    show CfgBus.mk _ = CfgBus.mk _
    rw [List.map_append]
    have h1 : b.subscribers.map (fun p =>
        if p.1 = e then (e, assocSet p.2 m c2) else p) = b.subscribers := by
      conv_rhs => rw [show b.subscribers = b.subscribers.map id from (List.map_id _).symm]
      apply List.map_congr_left
      intro p hpmem
      have hpe : p.1 ≠ e := by
        intro hcontra
        exact not_mem_keys_of_lookup_none b.subscribers e hnone
          (hcontra ▸ List.mem_map_of_mem Prod.fst hpmem)
      rw [if_neg hpe]
      rfl
    rw [h1]
    have h2 : ([(e, [(m, c1)])].map (fun p =>
        if p.1 = e then (e, assocSet p.2 m c2) else p)) = [(e, [(m, c2)])] := by
      simp [assocSet_cons_eq m c1 [] m c2 rfl]
    rw [h2]

theorem cfg_publish_latest (b : CfgBus) (m e : String) (c2 : Nat) (v : Option Nat)
    (hb : wfBus b) :
    (ConfigEventBus.publish (ConfigEventBus.subscribe b m e c2) e v).filter
      (fun q => q.1 == m) = [(m, c2, v)] := by
  by_cases hp : (b.subscribers.lookup e).isSome
  · obtain ⟨inner, hinner⟩ : ∃ i, b.subscribers.lookup e = some i := by
      cases hh : b.subscribers.lookup e
      · rw [hh] at hp; simp at hp
      · exact ⟨_, rfl⟩
    have hsub : (ConfigEventBus.subscribe b m e c2).subscribers.lookup e =
        some (assocSet inner m c2) := by
      unfold ConfigEventBus.subscribe
      rw [if_pos hp]
      show ((b.subscribers.map fun p =>
          if p.1 = e then (e, assocSet p.2 m c2) else p).lookup e) = _
      rw [lookup_map_update b.subscribers e (fun i => assocSet i m c2), hinner]
      rfl
    unfold ConfigEventBus.publish
    rw [hsub]
    show ((assocSet inner m c2).map (fun p => (p.1, p.2, v))).filter (fun q => q.1 == m) = _
    rw [List.filter_map]
    have hcomp : ((fun q : String × Nat × Option Nat => q.1 == m) ∘
        (fun p : String × Nat => (p.1, p.2, v))) = (fun q : String × Nat => q.1 == m) := by
      funext q
      rfl
    rw [hcomp, assocSet_filter_self inner m c2
      (hb.2 (e, inner) (mem_of_lookup_some b.subscribers e inner hinner))]
    rfl
  · have hnone : b.subscribers.lookup e = none := by
      cases hh : b.subscribers.lookup e
      · rfl
      · rw [hh] at hp; simp at hp
    have hsub : (ConfigEventBus.subscribe b m e c2).subscribers.lookup e =
        some [(m, c2)] := by
      unfold ConfigEventBus.subscribe
      rw [if_neg hp]
      show ((b.subscribers ++ [(e, [(m, c2)])]).lookup e) = _
      rw [lookup_append_of_none _ _ _ hnone]
      simp [List.lookup_cons]
    unfold ConfigEventBus.publish
    rw [hsub]
    simp

/-- C10: the config-change subscriber table keeps at most one callback per
(event, module) pair: subscribing preserves well-formedness, a second
registration by the same module for the same event replaces the first one
entirely, and a publish invokes only the most recent callback, exactly once —
unlike the event bus, where two identical registrations both fire. -/
theorem config_subscribe_replaces_per_module_pair (b : CfgBus) (m e : String) (c1 c2 : Nat) (v : Option Nat)
    (hb : wfBus b) :
    wfBus (ConfigEventBus.subscribe b m e c1) ∧
    ConfigEventBus.subscribe (ConfigEventBus.subscribe b m e c1) m e c2 =
      ConfigEventBus.subscribe b m e c2 ∧
    (ConfigEventBus.publish (ConfigEventBus.subscribe b m e c2) e v).filter
      (fun q => q.1 == m) = [(m, c2, v)] ∧
    (EventBus.publish
        (((ebSubscribeTable (ebSubscribeTable [] "ev" ⟨9, true, CbOut.ret none⟩)
            "ev" ⟨9, true, CbOut.ret none⟩).lookup "ev").getD [])
        true false).invoked = [9, 9] :=
  ⟨cfg_subscribe_wf b m e c1 hb, cfg_subscribe_absorb b m e c1 c2,
   cfg_publish_latest b m e c2 v hb, by rfl⟩

/-- Witness for C10 on the empty subscriber table. -/
theorem config_subscribe_replaces_per_module_pair_witness :
    wfBus (⟨[]⟩ : CfgBus) ∧
    (wfBus (ConfigEventBus.subscribe ⟨[]⟩ "mod" "mod.key" 1) ∧
     ConfigEventBus.subscribe (ConfigEventBus.subscribe ⟨[]⟩ "mod" "mod.key" 1)
       "mod" "mod.key" 2 = ConfigEventBus.subscribe ⟨[]⟩ "mod" "mod.key" 2 ∧
     (ConfigEventBus.publish (ConfigEventBus.subscribe ⟨[]⟩ "mod" "mod.key" 2) "mod.key"
       (some (5 : Nat))).filter (fun q => q.1 == "mod") = [("mod", 2, some 5)] ∧
     (EventBus.publish
        (((ebSubscribeTable (ebSubscribeTable [] "ev" ⟨9, true, CbOut.ret none⟩)
            "ev" ⟨9, true, CbOut.ret none⟩).lookup "ev").getD [])
        true false).invoked = [9, 9]) :=
  ⟨by decide, config_subscribe_replaces_per_module_pair ⟨[]⟩ "mod" "mod.key" 1 2 (some 5) (by decide)⟩

/- ============ witnesses and counterexamples ============ -/

/-- C5 counterexample: when a raising subscriber runs before the responder,
the raiser resolves the response future with the no_response sentinel and the
requester does NOT receive the first non-nil handler result. -/
theorem request_raiser_masks_responder :
    EventBus.request [⟨0, true, CbOut.raise⟩, ⟨1, true, CbOut.ret (some (EVal.mk 5))⟩] =
      (some EVal.noResponse, false) ∧ EVal.noResponse ≠ EVal.mk 5 := by
  decide

/-- Witness for C5: one nil-returning subscriber, then the responder, then
a raiser. -/
theorem request_returns_first_nonnil_when_no_earlier_raiser_witness :
    (∀ x ∈ ([⟨0, true, CbOut.ret none⟩] : List ESub), x.filterPass →
      x.out = CbOut.ret none) ∧
    EventBus.request ([⟨0, true, CbOut.ret none⟩] ++
      (⟨1, true, CbOut.ret (some (EVal.mk 7))⟩ : ESub) :: [⟨2, true, CbOut.raise⟩]) =
      (some (EVal.mk 7), false) :=
  ⟨by decide, request_returns_first_nonnil_when_no_earlier_raiser [⟨0, true, CbOut.ret none⟩] [⟨2, true, CbOut.raise⟩] 1 (EVal.mk 7)
    (by decide)⟩

/-- C6 counterexample: with one subscriber that returns None, request
returns the no_response sentinel, which is not nil. -/
theorem request_nil_only_returns_sentinel_not_nil :
    EventBus.request [⟨0, true, CbOut.ret none⟩] = (some EVal.noResponse, false) ∧
    some EVal.noResponse ≠ (none : Option EVal) := by
  decide

/-- Witness for C6: one filtered-out subscriber and one nil returner. -/
theorem request_without_result_returns_sentinel_witness :
    (∀ x ∈ ([⟨0, false, CbOut.ret (some (EVal.mk 3))⟩, ⟨1, true, CbOut.ret none⟩] :
        List ESub), x.filterPass → (x.out = CbOut.raise ∨ x.out = CbOut.ret none)) ∧
    EventBus.request
        [⟨0, false, CbOut.ret (some (EVal.mk 3))⟩, ⟨1, true, CbOut.ret none⟩] =
      ((if ([⟨0, false, CbOut.ret (some (EVal.mk 3))⟩, ⟨1, true, CbOut.ret none⟩] :
          List ESub).isEmpty then none else some EVal.noResponse), false) :=
  ⟨by decide, request_without_result_returns_sentinel [⟨0, false, CbOut.ret (some (EVal.mk 3))⟩, ⟨1, true, CbOut.ret none⟩]
    (by decide)⟩

/-- Witness for C7 on an empty store with value 2. -/
theorem set_notifies_iff_value_changed_witness :
    (ConfigManager.oldValue (CfgMgr.mk [] [] ⟨[]⟩ : CfgMgr Nat) "m" "k" ≠ some 2) ∧
    (((ConfigManager.set (CfgMgr.mk [] [] ⟨[]⟩ : CfgMgr Nat) "m" "k" (some 2)).events =
      (if ConfigManager.oldValue (CfgMgr.mk [] [] ⟨[]⟩ : CfgMgr Nat) "m" "k" = some 2
        then [] else [("m" ++ "." ++ "k", some 2)])) ∧
    (ConfigManager.set (CfgMgr.mk [] [] ⟨[]⟩ : CfgMgr Nat) "m" "k" (some 2)).mgr.saved =
      (ConfigManager.set (CfgMgr.mk [] [] ⟨[]⟩ : CfgMgr Nat) "m" "k" (some 2)).mgr.data ∧
    (ConfigManager.set
      (ConfigManager.set (CfgMgr.mk [] [] ⟨[]⟩ : CfgMgr Nat) "m" "k" (some 2)).mgr
      "m" "k" (some 2)).events = [] ∧
    ((ConfigManager.set (CfgMgr.mk [] [] ⟨[]⟩ : CfgMgr Nat) "m" "k" (some 2)).events ++
      (ConfigManager.set
        (ConfigManager.set (CfgMgr.mk [] [] ⟨[]⟩ : CfgMgr Nat) "m" "k" (some 2)).mgr
        "m" "k" (some 2)).events).length = 1) :=
  ⟨by decide, set_notifies_iff_value_changed (CfgMgr.mk [] [] ⟨[]⟩ : CfgMgr Nat) "m" "k" (some 2) (by decide)⟩

/-- Witness for C8: one well-formed manifest and one unparsable one. -/
theorem discover_keeps_wellformed_skips_defective_witness :
    ((([DirManifest.json [("module_name", "a"), ("category", "c"), ("entry", "e.py"),
          ("class_name", "A")], DirManifest.badJson] :
        List DirManifest).filterMap ModuleManager.manifestInfo).map
          ModuleInfo.full_name).Nodup ∧
    ModuleManager.discover_modules
        [DirManifest.json [("module_name", "a"), ("category", "c"), ("entry", "e.py"),
          ("class_name", "A")], DirManifest.badJson] =
      (([DirManifest.json [("module_name", "a"), ("category", "c"), ("entry", "e.py"),
          ("class_name", "A")], DirManifest.badJson] :
        List DirManifest).filterMap ModuleManager.manifestInfo).map
          (fun mi => (mi.full_name, mi)) :=
  ⟨by decide, discover_keeps_wellformed_skips_defective [DirManifest.json [("module_name", "a"), ("category", "c"),
    ("entry", "e.py"), ("class_name", "A")], DirManifest.badJson] (by decide)⟩

